import Mathlib

/-!
Verification of the server manager core of the N.S.C.P.-2.0 repository
(`server_manager.py`): the RCON wire codec, the `SimpleRCON` client, the
log ring buffer, the log-derived presence tracker, and the RCON polling
circuit breaker of `MinecraftServerManager`.

Bytes are modelled as natural numbers below 256, byte streams as
`List Nat`, Python `int` as `Int` (unbounded), timestamps as `Int`, and
Python exceptions as `Except String`.
-/

set_option maxHeartbeats 1000000

namespace ServerManager

/-! ## Little-endian int32, as packed by `struct.pack("<i", x)` -/

/-- Model of `struct.pack("<i", x)`: four little-endian bytes of `x` taken mod 2^32.
(Python raises for out-of-range values; theorems carry range hypotheses.) -/
def int32ToBytes (x : Int) : List Nat :=
  let n : Nat := (x % 4294967296).toNat
  [n % 256, n / 256 % 256, n / 65536 % 256, n / 16777216 % 256]

/-- Model of `struct.unpack("<i", bs)`: recombine four little-endian bytes into a
signed 32-bit value. -/
def bytesToInt32 (bs : List Nat) : Int :=
  match bs with
  | [b0, b1, b2, b3] =>
    let m : Nat := b0 + 256 * b1 + 65536 * b2 + 16777216 * b3
    if m < 2147483648 then (m : Int) else (m : Int) - 4294967296
  | _ => 0

/-! ## UTF-8, as performed by `str.encode("utf-8")` and
`bytes.decode("utf-8", errors="replace")` -/

/-- UTF-8 encoding of a single Unicode code point. -/
def utf8EncodeCp (c : Nat) : List Nat :=
  if c < 128 then [c]
  else if c < 2048 then [192 + c / 64, 128 + c % 64]
  else if c < 65536 then [224 + c / 4096, 128 + c / 64 % 64, 128 + c % 64]
  else [240 + c / 262144, 128 + c / 4096 % 64, 128 + c / 64 % 64, 128 + c % 64]

/-- Model of `str.encode("utf-8")` on the code points of a string. -/
def utf8Encode (s : String) : List Nat :=
  s.data.flatMap (fun c => utf8EncodeCp c.toNat)

/-- The U+FFFD replacement character substituted by `errors="replace"`. -/
def replChar : Char := Char.ofNat 65533

/-- One step of UTF-8 decoding with replacement: given the lead byte and the
remaining bytes, produce the decoded character (or U+FFFD) and the bytes left
over. -/
def utf8DecodeStep (b0 : Nat) (rest : List Nat) : Char × List Nat :=
  if b0 < 128 then (Char.ofNat b0, rest)
  else if b0 < 194 then (replChar, rest)
  else if b0 < 224 then
    match rest with
    | b1 :: rest2 =>
      if 128 ≤ b1 ∧ b1 < 192 then
        (Char.ofNat ((b0 - 192) * 64 + (b1 - 128)), rest2)
      else (replChar, rest)
    | [] => (replChar, [])
  else if b0 < 240 then
    match rest with
    | b1 :: b2 :: rest3 =>
      if 128 ≤ b1 ∧ b1 < 192 ∧ 128 ≤ b2 ∧ b2 < 192 ∧
          2048 ≤ (b0 - 224) * 4096 + (b1 - 128) * 64 + (b2 - 128) ∧
          ¬ (55296 ≤ (b0 - 224) * 4096 + (b1 - 128) * 64 + (b2 - 128) ∧
             (b0 - 224) * 4096 + (b1 - 128) * 64 + (b2 - 128) ≤ 57343) then
        (Char.ofNat ((b0 - 224) * 4096 + (b1 - 128) * 64 + (b2 - 128)), rest3)
      else (replChar, rest)
    | _ => (replChar, rest)
  else if b0 < 245 then
    match rest with
    | b1 :: b2 :: b3 :: rest4 =>
      if 128 ≤ b1 ∧ b1 < 192 ∧ 128 ≤ b2 ∧ b2 < 192 ∧ 128 ≤ b3 ∧ b3 < 192 ∧
          65536 ≤ (b0 - 240) * 262144 + (b1 - 128) * 4096 + (b2 - 128) * 64 + (b3 - 128) ∧
          (b0 - 240) * 262144 + (b1 - 128) * 4096 + (b2 - 128) * 64 + (b3 - 128)
            ≤ 1114111 then
        (Char.ofNat ((b0 - 240) * 262144 + (b1 - 128) * 4096 + (b2 - 128) * 64 + (b3 - 128)),
         rest4)
      else (replChar, rest)
    | _ => (replChar, rest)
  else (replChar, rest)

/-- Iterated decoding, fueled so that the recursion is structural; the fuel
is always instantiated with the length of the byte list. -/
def utf8DecodeRAux : Nat → List Nat → List Char
  | _, [] => []
  | 0, _ :: _ => []
  | fuel + 1, b0 :: rest =>
    (utf8DecodeStep b0 rest).1 :: utf8DecodeRAux fuel (utf8DecodeStep b0 rest).2

/-- UTF-8 decoding with replacement, modelling
`bytes.decode("utf-8", errors="replace")`. -/
def utf8DecodeR (l : List Nat) : List Char :=
  utf8DecodeRAux l.length l

/-- Model of `bytes.decode("utf-8", errors="replace")` producing a string. -/
def utf8DecodeRStr (l : List Nat) : String :=
  String.mk (utf8DecodeR l)

/-! ## RCON packet framing (`SimpleRCON._send_packet` / `SimpleRCON._read_packet`) -/

/-- The byte frame produced by `SimpleRCON._send_packet`:
`length:int32-LE | request_id:int32-LE | type:int32-LE | payload | 0x00 0x00`,
where `length = 4 + 4 + len(payload)` counts everything after itself. -/
def send_packet (req_id p_type : Int) (body : String) : List Nat :=
  let payload := utf8Encode body ++ [0, 0]
  int32ToBytes (4 + 4 + (payload.length : Int)) ++ int32ToBytes req_id
    ++ int32ToBytes p_type ++ payload

/-- Model of `SimpleRCON._recv_exact`: read exactly `size` bytes from the stream, or
fail with a connection-closed error; a non-positive `size` yields no bytes. -/
def recv_exact (size : Int) (s : List Nat) : Except String (List Nat × List Nat) :=
  if size ≤ 0 then .ok ([], s)
  else if s.length < size.toNat then .error "RCON connection closed"
  else .ok (s.take size.toNat, s.drop size.toNat)

/-- Model of `SimpleRCON._read_packet` over an explicit byte stream: returns the
decoded `(request_id, type, body)` and the unconsumed remainder of the
stream, `none` for the degenerate short-frame paths, or an error when the
stream ends prematurely. -/
def read_packet (s : List Nat) : Except String (Option (Int × Int × String) × List Nat) :=
  match recv_exact 4 s with
  | .error e => .error e
  | .ok (raw_len, s1) =>
    if raw_len.isEmpty then .ok (none, s1)
    else
      match recv_exact (bytesToInt32 raw_len) s1 with
      | .error e => .error e
      | .ok (data, s2) =>
        if data.isEmpty ∨ data.length < 8 then .ok (none, s2)
        else
          .ok (some (bytesToInt32 (data.take 4), bytesToInt32 ((data.drop 4).take 4),
            utf8DecodeRStr ((data.drop 8).dropLast.dropLast)), s2)

/-! ## The `SimpleRCON` client as a state machine

The socket is modelled by `Option (List Nat)`: `none` is no socket, and an
open socket carries the incoming bytes not yet consumed. Outgoing bytes do
not influence the client's state beyond the connectedness check, so
`_send_packet` is modelled by that check. -/

def SERVERDATA_AUTH : Int := 3

def SERVERDATA_EXECCOMMAND : Int := 2

def SERVERDATA_RESPONSE_VALUE : Int := 0

structure RCONConn where
  password : String
  sock : Option (List Nat)
  req_id : Int
deriving DecidableEq

/-- Model of `SimpleRCON.__init__`: no socket, request-id counter at 0. -/
def rcon_init (password : String) : RCONConn :=
  { password := password, sock := none, req_id := 0 }

/-- Model of `SimpleRCON._connect`: open a socket whose incoming bytes are `incoming`. -/
def rcon_connect (incoming : List Nat) (c : RCONConn) : RCONConn :=
  { c with sock := some incoming }

/-- Model of `SimpleRCON._close`: drop the socket. -/
def rcon_close (c : RCONConn) : RCONConn :=
  { c with sock := none }

/-- Model of `SimpleRCON._next_id`: increment the counter and return it. -/
def rcon_next_id (c : RCONConn) : Int × RCONConn :=
  (c.req_id + 1, { c with req_id := c.req_id + 1 })

/-- Model of `SimpleRCON._send_packet`: raises when no socket is connected; the bytes
sent do not affect the client state. -/
def rcon_send_packet (c : RCONConn) : Except String Unit :=
  match c.sock with
  | none => .error "RCON socket not connected"
  | some _ => .ok ()

/-- Model of `SimpleRCON._read_packet` acting on the connection: consume one frame
from the pending incoming bytes. -/
def rcon_read_packet (c : RCONConn) : RCONConn × Except String (Option (Int × Int × String)) :=
  match c.sock with
  | none => (c, .error "RCON socket not connected")
  | some s =>
    match read_packet s with
    | .error e => (c, .error e)
    | .ok (pkt, rest) => ({ c with sock := some rest }, .ok pkt)

/-- Model of `SimpleRCON.auth`: send an AUTH packet, read two response packets, and
fail when the second one has request id `-1` or a type other than
`SERVERDATA_RESPONSE_VALUE`. A `None` triple from `_read_packet` also fails
(its type compares unequal to `SERVERDATA_RESPONSE_VALUE`). -/
def rcon_auth (c : RCONConn) : RCONConn × Except String Unit :=
  let c1 := (rcon_next_id c).2
  match rcon_send_packet c1 with
  | .error e => (c1, .error e)
  | .ok _ =>
    match rcon_read_packet c1 with
    | (c2, .error e) => (c2, .error e)
    | (c2, .ok _) =>
      match rcon_read_packet c2 with
      | (c3, .error e) => (c3, .error e)
      | (c3, .ok none) => (c3, .error "RCON auth failed")
      | (c3, .ok (some (rid2, ptype2, _))) =>
        if rid2 = -1 ∨ ptype2 ≠ SERVERDATA_RESPONSE_VALUE then
          (c3, .error "RCON auth failed")
        else (c3, .ok ())

/-- Fueled body of the packet-reading loop inside `SimpleRCON.command`:
collect response bodies until a `None` triple or a packet whose request id
matches `rid`; the body of the matching packet is still collected first.
Every successful `read_packet` consumes at least four bytes, so fuel
`s.length + 1` never runs out (the fuel-exhausted case is unreachable). -/
def cmd_loop_fuel : Nat → Int → List String → List Nat →
    List Nat × Except String (List String)
  | 0, _, acc, s => (s, .ok acc.reverse)
  | fuel + 1, rid, acc, s =>
    match read_packet s with
    | .error e => (s, .error e)
    | .ok (none, rest) => (rest, .ok acc.reverse)
    | .ok (some (resp_id, _, body), rest) =>
      if resp_id = rid then (rest, .ok (body :: acc).reverse)
      else cmd_loop_fuel fuel rid (body :: acc) rest

/-- The packet-reading loop inside `SimpleRCON.command`, on the raw stream. -/
def cmd_loop (rid : Int) (acc : List String) (s : List Nat) :
    List Nat × Except String (List String) :=
  cmd_loop_fuel (s.length + 1) rid acc s

/-- Model of `SimpleRCON.command` once a socket exists: allocate the next request id,
send the EXEC_COMMAND packet, and run the read loop, joining the collected
bodies with newlines. -/
def rcon_command_connected (c : RCONConn) : RCONConn × Except String String :=
  let p := rcon_next_id c
  match p.2.sock with
  | none => (p.2, .error "RCON socket not connected")
  | some s =>
    match cmd_loop p.1 [] s with
    | (rest, .error e) => ({ p.2 with sock := some rest }, .error e)
    | (rest, .ok parts) =>
      ({ p.2 with sock := some rest }, .ok (String.intercalate "\n" parts))

/-- Model of `SimpleRCON.command`: if no socket exists, connect (the fresh socket's
incoming bytes are `incoming`) and authenticate first; an error at any
stage propagates without closing the socket. -/
def rcon_command (incoming : List Nat) (cmd : String) (c : RCONConn) :
    RCONConn × Except String String :=
  match c.sock with
  | none =>
    let c1 := rcon_connect incoming c
    match rcon_auth c1 with
    | (c2, .error e) => (c2, .error e)
    | (c2, .ok _) => rcon_command_connected c2
  | some _ => rcon_command_connected c

/-- Model of `SimpleRCON.__enter__`: connect then authenticate. -/
def rcon_enter (incoming : List Nat) (c : RCONConn) : RCONConn × Except String Unit :=
  rcon_auth (rcon_connect incoming c)

/-- Model of `SimpleRCON.__exit__`: close the socket (run only when `__enter__`
succeeded). -/
def rcon_exit (c : RCONConn) : RCONConn :=
  rcon_close c

/-- The request ids produced by `n` successive calls of `_next_id`. -/
def rcon_ids (c : RCONConn) : Nat → List Int
  | 0 => []
  | n + 1 => (rcon_next_id c).1 :: rcon_ids (rcon_next_id c).2 n

/-! ## Python string helpers -/

/-- The whitespace characters stripped by Python `str.strip()` (also the
characters matched by the regex class `\s` on ASCII text). -/
def pySpace (c : Char) : Bool :=
  c = ' ' || c = '\t' || c = '\n' || c = '\r' || c = Char.ofNat 11 || c = Char.ofNat 12

/-- Python `str.strip()` on a character list. -/
def pyStripChars (l : List Char) : List Char :=
  ((l.dropWhile pySpace).reverse.dropWhile pySpace).reverse

/-- Everything after the first `:` (the `[1]` component of
`resp.split(":", 1)` when a colon is present). -/
def afterFirstColon (l : List Char) : List Char :=
  (l.dropWhile (fun c => ¬ c = ':')).tail

/-! ## `MinecraftServerManager._parse_list_response` -/

/-- Model of `_parse_list_response`: empty input gives `[]`; otherwise split once on
the first colon, strip the right-hand side, and if non-empty split it on
commas, strip each token, and keep the non-empty ones. -/
def parse_list_response (resp : String) : List String :=
  if resp.data = [] then []
  else
    let names_part := if ':' ∈ resp.data then pyStripChars (afterFirstColon resp.data) else []
    if names_part = [] then []
    else
      (((names_part.splitOn ',').map pyStripChars).filter (fun t => ¬ t = [])).map String.mk

/-- The parse algorithm as the specification words it: split once on the
first colon; if no colon or an empty (trimmed) right-hand side, return the
empty list; otherwise split the right-hand side on commas, trim whitespace
from each token, and drop empty tokens. Stated separately from
`parse_list_response` to compare the code against the spec. -/
def parse_list_spec (resp : String) : List String :=
  if ':' ∈ resp.data then
    let rhs := pyStripChars (afterFirstColon resp.data)
    if rhs = [] then []
    else
      (((rhs.splitOn ',').map pyStripChars).filter (fun t => ¬ t = [])).map String.mk
  else []

/-! ## Log-derived presence tracking
(`MinecraftServerManager._process_player_events`)

The two precompiled case-insensitive regexes are translated into explicit
matchers. Character classes are disjoint from what follows them except for
the address segment `[0-9A-Fa-f\.:]+` before `:\d+\]`, which needs the
greedy-with-backtracking search `matchHostBacktrack`. -/

/-- The regex class `[A-Za-z0-9_]` (an identity token character). -/
def isWordChar (c : Char) : Bool :=
  c.isAlpha || c.isDigit || c = '_'

/-- The regex class `[0-9A-Fa-f\.:]` of the address segment (with
`re.IGNORECASE`, `A-F` also matches `a-f`). -/
def isHostChar (c : Char) : Bool :=
  c.isDigit || ('A' ≤ c && c ≤ 'F') || ('a' ≤ c && c ≤ 'f') || c = '.' || c = ':'

/-- Case-insensitive literal match at the head of a character list
(`re.IGNORECASE` on an ASCII literal). -/
def startsWithCI : List Char → List Char → Bool
  | [], _ => true
  | _ :: _, [] => false
  | p :: ps, c :: cs => (p.toLower = c.toLower) && startsWithCI ps cs

/-- The quit pattern
`]:\s*([A-Za-z0-9_]+)\s+(?:lost connection|disconnected|left the game|timed out)`
attempted at the head of the list; returns the captured identity token. -/
def matchQuitAt (l : List Char) : Option (List Char) :=
  match l with
  | ']' :: ':' :: rest =>
    let rest1 := rest.dropWhile pySpace
    let name := rest1.takeWhile isWordChar
    let rest2 := rest1.dropWhile isWordChar
    if name = [] then none
    else
      let ws := rest2.takeWhile pySpace
      let rest3 := rest2.dropWhile pySpace
      if ws = [] then none
      else if startsWithCI "lost connection".data rest3
          || startsWithCI "disconnected".data rest3
          || startsWithCI "left the game".data rest3
          || startsWithCI "timed out".data rest3 then some name
      else none
  | _ => none

/-- Model of `re.search` with the quit pattern: try every start position, leftmost
match wins. -/
def searchQuit : List Char → Option (List Char)
  | [] => none
  | c :: tl =>
    match matchQuitAt (c :: tl) with
    | some n => some n
    | none => searchQuit tl

/-- The `:\d+\]` part after the address segment; returns what follows the
closing bracket. -/
def hostTail (l : List Char) : Option (List Char) :=
  match l with
  | ':' :: r =>
    let ds := r.takeWhile Char.isDigit
    let r2 := r.dropWhile Char.isDigit
    if ds = [] then none
    else
      match r2 with
      | ']' :: r3 => some r3
      | _ => none
  | _ => none

/-- The `\s+logged in with entity id` tail of the join pattern. -/
def joinAfterBracket (l : List Char) : Bool :=
  (!(l.takeWhile pySpace).isEmpty)
    && startsWithCI "logged in with entity id".data (l.dropWhile pySpace)

/-- Greedy backtracking for `[0-9A-Fa-f\.:]+:\d+\]\s+logged in...`: the
first argument is the reversed consumed class run; give characters back one
at a time (at least one must stay consumed) until the rest of the pattern
matches. -/
def matchHostBacktrack : List Char → List Char → Bool
  | [], _ => false
  | c :: cr, rest =>
    match hostTail rest with
    | some r3 =>
      if joinAfterBracket r3 then true else matchHostBacktrack cr (c :: rest)
    | none => matchHostBacktrack cr (c :: rest)

/-- The join pattern
`]:\s*([A-Za-z0-9_]+)\[/[0-9A-Fa-f\.:]+:\d+\]\s+logged in with entity id`
attempted at the head of the list; returns the captured identity token. -/
def matchJoinAt (l : List Char) : Option (List Char) :=
  match l with
  | ']' :: ':' :: rest =>
    let rest1 := rest.dropWhile pySpace
    let name := rest1.takeWhile isWordChar
    let rest2 := rest1.dropWhile isWordChar
    if name = [] then none
    else
      match rest2 with
      | '[' :: '/' :: rest3 =>
        let run := rest3.takeWhile isHostChar
        let rest4 := rest3.dropWhile isHostChar
        if run = [] then none
        else if matchHostBacktrack run.reverse rest4 then some name
        else none
      | _ => none
  | _ => none

/-- Model of `re.search` with the join pattern. -/
def searchJoin : List Char → Option (List Char)
  | [] => none
  | c :: tl =>
    match matchJoinAt (c :: tl) with
    | some n => some n
    | none => searchJoin tl

/-- The event recognized on one log line by `_process_player_events`:
the line is stripped, the join pattern is tried first, then the quit
pattern; `true` marks a join, `false` a leave. -/
def eventOf (line : String) : Option (String × Bool) :=
  let txt := pyStripChars line.data
  match searchJoin txt with
  | some name => some (String.mk name, true)
  | none =>
    match searchQuit txt with
    | some name => some (String.mk name, false)
    | none => none

/-- The presence-tracker state: the online set `players_online` and the
last-seen map `player_last_seen`. -/
structure Presence where
  players_online : List String
  player_last_seen : String → Option Int

/-- Initial tracker state: `players_online = set()`, `player_last_seen` empty. -/
def presence_init : Presence :=
  { players_online := [], player_last_seen := fun _ => none }

/-- Model of `set.add`: no duplicates. -/
def addOnline (n : String) (l : List String) : List String :=
  if n ∈ l then l else l ++ [n]

/-- Model of `set.discard`. -/
def removeOnline (n : String) (l : List String) : List String :=
  l.filter (fun m => ¬ m = n)

/-- Model of `_process_player_events(line)` at wall-clock time `now`: on a join
match add the identity and stamp its last-seen; on a leave match remove it
from the online set and stamp its last-seen; otherwise leave the state
unchanged. -/
def process_player_events (line : String) (now : Int) (s : Presence) : Presence :=
  match eventOf line with
  | none => s
  | some (name, true) =>
    { players_online := addOnline name s.players_online,
      player_last_seen := fun m => if m = name then some now else s.player_last_seen m }
  | some (name, false) =>
    { players_online := removeOnline name s.players_online,
      player_last_seen := fun m => if m = name then some now else s.player_last_seen m }

/-! ## `MinecraftServerManager` state -/

/-- One retained console-log entry: `{"id": ..., "line": ...}`. -/
structure LogEntry where
  id : Nat
  line : String
deriving DecidableEq

/-- Capacity of the `deque(maxlen=2000)` ring buffer. -/
def LOG_CAPACITY : Nat := 2000

/-- The supervisor state: log ring buffer and id counter, presence tracker,
RCON circuit-breaker fields, process handle (`none` = no handle,
`some none` = running, `some (some code)` = exited with `code`), the manual
stop flag, the `running` flag, and a count of spawned stop workers (for
observing that `stop` spawns one). -/
structure MState where
  console_log : List LogEntry
  log_id : Nat
  presence : Presence
  rcon_enabled : Bool
  rcon_pass : String
  rcon_fail_count : Nat
  rcon_disabled_reason : Option String
  process : Option (Option Int)
  user_requested_stop : Bool
  running : Bool
  stop_workers : Nat

/-- Model of `MinecraftServerManager.__init__` (with `RCON_PASS = rcon_pass`):
`rcon_enabled = bool(rcon_pass)`. -/
def mstate_init (rcon_pass : String) : MState :=
  { console_log := [], log_id := 0, presence := presence_init,
    rcon_enabled := !rcon_pass.isEmpty, rcon_pass := rcon_pass,
    rcon_fail_count := 0, rcon_disabled_reason := none,
    process := none, user_requested_stop := false, running := false,
    stop_workers := 0 }

/-- Model of `line.rstrip("\n")`. -/
def pyRstripNewline (s : String) : String :=
  String.mk ((s.data.reverse.dropWhile (fun c => c = '\n')).reverse)

/-- Model of `_add_log_line`: assign the next id, append the entry (the bounded
deque evicts from the left beyond `LOG_CAPACITY`), then feed the raw line
to `_process_player_events`. -/
def add_log_line (line : String) (now : Int) (s : MState) : MState :=
  let entries := s.console_log ++ [⟨s.log_id + 1, pyRstripNewline line⟩]
  { s with
    log_id := s.log_id + 1,
    console_log :=
      if LOG_CAPACITY < entries.length then entries.drop (entries.length - LOG_CAPACITY)
      else entries,
    presence := process_player_events line now s.presence }

/-- Model of `get_logs_since(last_id)`: the retained entries with id strictly
greater than `last_id`. -/
def get_logs_since (last_id : Nat) (s : MState) : List LogEntry :=
  s.console_log.filter (fun e => last_id < e.id)

/-- A sequence of `_add_log_line` calls, each with its wall-clock time. -/
def appendAll (evs : List (String × Int)) (s : MState) : MState :=
  evs.foldl (fun st ev => add_log_line ev.1 ev.2 st) s

/-- The entries the reader produces for `lines` on a fresh manager before
any eviction: the `i`-th line gets id `i + 1`. -/
def entriesFor (lines : List String) : List LogEntry :=
  List.zipWith (fun i l => ⟨i + 1, pyRstripNewline l⟩) (List.range lines.length) lines

/-- Insertion of a string into a `≤`-sorted list (Python's `sorted` on the
online set). -/
def insertSorted (x : String) : List String → List String
  | [] => [x]
  | y :: ys => if x < y ∨ x = y then x :: y :: ys else y :: insertSorted x ys

/-- Model of `sorted(...)` for player names. -/
def sortNames (l : List String) : List String :=
  l.foldr insertSorted []

/-- Model of `set(names)`: deduplicate, keeping first occurrences. -/
def dedupNames (l : List String) : List String :=
  l.foldl (fun acc n => addOnline n acc) []

/-- The value `get_online_players` returns: the online set sorted by name,
each with its last-seen value. -/
def onlineView (s : MState) : List (String × Option Int) :=
  (sortNames s.presence.players_online).map (fun n => (n, s.presence.player_last_seen n))

/-- Model of `_rcon_list`: `none` without touching the network when RCON is disabled
or permanently failed; otherwise the network interaction (one scoped
`SimpleRCON` session running `list`) either yields a response string to
parse or raises, in which case the failure counter advances, a diagnostic
line is logged, and from the third failure on the breaker trips. The
returned boolean records whether the network was touched. -/
def rcon_list (net : Except String String) (now : Int) (s : MState) :
    Option (List String) × MState × Bool :=
  if s.rcon_enabled = false ∨ s.rcon_pass = "" then (none, s, false)
  else if ¬ s.rcon_disabled_reason = none then (none, s, false)
  else
    match net with
    | .ok resp => (some (parse_list_response resp), s, true)
    | .error msg =>
      let s1 := { s with rcon_fail_count := s.rcon_fail_count + 1 }
      let s2 := add_log_line
        ("[PANEL] RCON /list failed (attempt " ++ toString s1.rcon_fail_count ++ "): " ++ msg)
        now s1
      if 3 ≤ s1.rcon_fail_count then
        let s3 := { s2 with rcon_disabled_reason := some msg }
        (none, add_log_line
          ("[PANEL] RCON permanently disabled after repeated failures: " ++ msg
            ++ ". Falling back to log-based player tracking only.") now s3, true)
      else (none, s2, true)

/-- Model of `get_online_players`: try `_rcon_list`; on success replace the online
set and stamp last-seen for every polled name; on `None` fall back to the
log-derived state unchanged; return the sorted view. -/
def get_online_players (net : Except String String) (now : Int) (s : MState) :
    List (String × Option Int) × MState × Bool :=
  let r := rcon_list net now s
  match r.1 with
  | some names =>
    let s2 := { r.2.1 with presence :=
      { players_online := dedupNames names,
        player_last_seen := fun n =>
          if n ∈ names then some now else r.2.1.presence.player_last_seen n } }
    (onlineView s2, s2, r.2.2)
  | none => (onlineView r.2.1, r.2.1, r.2.2)

/-- Model of `stop()`: with no process handle or an already-exited process, return
`False` with no side effect; otherwise set `user_requested_stop`, spawn the
stop worker, log, and return `True`. -/
def stop (now : Int) (s : MState) : Bool × MState :=
  match s.process with
  | none => (false, s)
  | some (some _) => (false, s)
  | some none =>
    let s1 := { s with user_requested_stop := true, stop_workers := s.stop_workers + 1 }
    (true, add_log_line "[PANEL] Stop requested." now s1)

/-- One supervisor operation, as a step relation over the modelled state. -/
inductive MStep : MState → MState → Prop
  | add_log (line : String) (now : Int) (s : MState) : MStep s (add_log_line line now s)
  | rcon (net : Except String String) (now : Int) (s : MState) :
      MStep s (rcon_list net now s).2.1
  | players (net : Except String String) (now : Int) (s : MState) :
      MStep s (get_online_players net now s).2.1
  | halt (now : Int) (s : MState) : MStep s (stop now s).2

/-! ## Theorems -/

theorem int32ToBytes_length (x : Int) : (int32ToBytes x).length = 4 := rfl

theorem bytesToInt32_int32ToBytes (x : Int)
    (hlo : -2147483648 ≤ x) (hhi : x < 2147483648) :
    bytesToInt32 (int32ToBytes x) = x := by
  have hmod : x % 4294967296 = if 0 ≤ x then x else x + 4294967296 := by
    split <;> omega
  unfold int32ToBytes bytesToInt32
  by_cases hx : 0 ≤ x
  · have hx' : (x % 4294967296).toNat = x.toNat := by
      rw [hmod]; simp [hx]
    have hb : x.toNat < 4294967296 := by omega
    simp only [hx']
    have : x.toNat % 256 + 256 * (x.toNat / 256 % 256) + 65536 * (x.toNat / 65536 % 256)
        + 16777216 * (x.toNat / 16777216 % 256) = x.toNat := by omega
    simp only [this]
    have hlt : x.toNat < 2147483648 := by omega
    simp [hlt]; omega
  · have hx' : (x % 4294967296).toNat = (x + 4294967296).toNat := by
      rw [hmod]; simp [hx]
    set n : Nat := (x + 4294967296).toNat with hn
    have hb : 2147483648 ≤ n ∧ n < 4294967296 := by omega
    simp only [hx']
    have : n % 256 + 256 * (n / 256 % 256) + 65536 * (n / 65536 % 256)
        + 16777216 * (n / 16777216 % 256) = n := by omega
    simp only [← hn, this]
    have hlt : ¬ n < 2147483648 := by omega
    simp [hlt]; omega

theorem utf8DecodeStep_length (b0 : Nat) (rest : List Nat) :
    (utf8DecodeStep b0 rest).2.length ≤ rest.length := by
  unfold utf8DecodeStep
  repeat' split
  all_goals simp
  all_goals omega

theorem utf8DecodeRAux_nil (fuel : Nat) : utf8DecodeRAux fuel [] = [] := by
  cases fuel <;> rfl

theorem utf8DecodeRAux_congr (f1 : Nat) :
    ∀ (f2 : Nat) (l : List Nat), l.length ≤ f1 → l.length ≤ f2 →
      utf8DecodeRAux f1 l = utf8DecodeRAux f2 l := by
  induction f1 with
  | zero =>
    intro f2 l h1 _
    have : l = [] := by
      cases l
      · rfl
      · simp at h1
    rw [this, utf8DecodeRAux_nil, utf8DecodeRAux_nil]
  | succ f ih =>
    intro f2 l h1 h2
    cases l with
    | nil => rw [utf8DecodeRAux_nil, utf8DecodeRAux_nil]
    | cons b0 rest =>
      cases f2 with
      | zero => simp at h2
      | succ g =>
        rw [utf8DecodeRAux, utf8DecodeRAux]
        have hlen := utf8DecodeStep_length b0 rest
        have h1' : (utf8DecodeStep b0 rest).2.length ≤ f := by
          simp at h1; omega
        have h2' : (utf8DecodeStep b0 rest).2.length ≤ g := by
          simp at h2; omega
        rw [ih g _ h1' h2']

theorem utf8DecodeR_nil : utf8DecodeR [] = [] := rfl

theorem utf8DecodeR_cons (b0 : Nat) (bs : List Nat) :
    utf8DecodeR (b0 :: bs)
      = (utf8DecodeStep b0 bs).1 :: utf8DecodeR (utf8DecodeStep b0 bs).2 := by
  unfold utf8DecodeR
  rw [show (b0 :: bs).length = bs.length + 1 from rfl, utf8DecodeRAux]
  have hlen := utf8DecodeStep_length b0 bs
  rw [utf8DecodeRAux_congr bs.length _ _ hlen (le_refl _)]

theorem utf8DecodeR_ascii (b0 : Nat) (bs : List Nat) (h : b0 < 128) :
    utf8DecodeR (b0 :: bs) = Char.ofNat b0 :: utf8DecodeR bs := by
  have hst : utf8DecodeStep b0 bs = (Char.ofNat b0, bs) := by
    simp [utf8DecodeStep, h]
  rw [utf8DecodeR_cons, hst]

theorem utf8DecodeR_two (b0 b1 : Nat) (bs : List Nat)
    (h0 : 194 ≤ b0) (h0' : b0 < 224) (h1 : 128 ≤ b1) (h1' : b1 < 192) :
    utf8DecodeR (b0 :: b1 :: bs)
      = Char.ofNat ((b0 - 192) * 64 + (b1 - 128)) :: utf8DecodeR bs := by
  have hst : utf8DecodeStep b0 (b1 :: bs) = (Char.ofNat ((b0 - 192) * 64 + (b1 - 128)), bs) := by
    unfold utf8DecodeStep
    simp only [show ¬ b0 < 128 by omega, if_false, show ¬ b0 < 194 by omega, h0', if_true]
    simp [h1, h1']
  rw [utf8DecodeR_cons, hst]

theorem utf8DecodeR_three (b0 b1 b2 : Nat) (bs : List Nat)
    (h0 : 224 ≤ b0) (h0' : b0 < 240) (h1 : 128 ≤ b1) (h1' : b1 < 192)
    (h2 : 128 ≤ b2) (h2' : b2 < 192)
    (hcp : 2048 ≤ (b0 - 224) * 4096 + (b1 - 128) * 64 + (b2 - 128))
    (hsur : ¬ (55296 ≤ (b0 - 224) * 4096 + (b1 - 128) * 64 + (b2 - 128) ∧
               (b0 - 224) * 4096 + (b1 - 128) * 64 + (b2 - 128) ≤ 57343)) :
    utf8DecodeR (b0 :: b1 :: b2 :: bs)
      = Char.ofNat ((b0 - 224) * 4096 + (b1 - 128) * 64 + (b2 - 128)) :: utf8DecodeR bs := by
  have hst : utf8DecodeStep b0 (b1 :: b2 :: bs)
      = (Char.ofNat ((b0 - 224) * 4096 + (b1 - 128) * 64 + (b2 - 128)), bs) := by
    unfold utf8DecodeStep
    simp only [show ¬ b0 < 128 by omega, if_false, show ¬ b0 < 194 by omega,
      show ¬ b0 < 224 by omega, h0', if_true]
    simp [h1, h1', h2, h2', hcp, hsur]
  rw [utf8DecodeR_cons, hst]

theorem utf8DecodeR_four (b0 b1 b2 b3 : Nat) (bs : List Nat)
    (h0 : 240 ≤ b0) (h0' : b0 < 245) (h1 : 128 ≤ b1) (h1' : b1 < 192)
    (h2 : 128 ≤ b2) (h2' : b2 < 192) (h3 : 128 ≤ b3) (h3' : b3 < 192)
    (hlo : 65536 ≤ (b0 - 240) * 262144 + (b1 - 128) * 4096 + (b2 - 128) * 64 + (b3 - 128))
    (hhi : (b0 - 240) * 262144 + (b1 - 128) * 4096 + (b2 - 128) * 64 + (b3 - 128) ≤ 1114111) :
    utf8DecodeR (b0 :: b1 :: b2 :: b3 :: bs)
      = Char.ofNat ((b0 - 240) * 262144 + (b1 - 128) * 4096 + (b2 - 128) * 64 + (b3 - 128))
          :: utf8DecodeR bs := by
  have hst : utf8DecodeStep b0 (b1 :: b2 :: b3 :: bs)
      = (Char.ofNat ((b0 - 240) * 262144 + (b1 - 128) * 4096 + (b2 - 128) * 64 + (b3 - 128)),
         bs) := by
    unfold utf8DecodeStep
    simp only [show ¬ b0 < 128 by omega, if_false, show ¬ b0 < 194 by omega,
      show ¬ b0 < 224 by omega, show ¬ b0 < 240 by omega, h0', if_true]
    simp [h1, h1', h2, h2', h3, h3', hlo, hhi]
  rw [utf8DecodeR_cons, hst]

theorem utf8DecodeR_encodeCp (c : Char) (bs : List Nat) :
    utf8DecodeR (utf8EncodeCp c.toNat ++ bs) = c :: utf8DecodeR bs := by
  have hval : c.toNat < 55296 ∨ (57343 < c.toNat ∧ c.toNat < 1114112) := by
    have h := c.valid
    rcases h with h | h
    · left; exact_mod_cast h
    · right; exact ⟨by exact_mod_cast h.1, by exact_mod_cast h.2⟩
  have hofNat : Char.ofNat c.toNat = c := Char.ofNat_toNat c
  by_cases h1 : c.toNat < 128
  · simp only [utf8EncodeCp, if_pos h1, List.cons_append, List.nil_append]
    rw [utf8DecodeR_ascii _ _ h1, hofNat]
  · by_cases h2 : c.toNat < 2048
    · simp only [utf8EncodeCp, if_neg h1, if_pos h2, List.cons_append, List.nil_append]
      rw [utf8DecodeR_two _ _ _ (by omega) (by omega) (by omega) (by omega)]
      rw [show (192 + c.toNat / 64 - 192) * 64 + (128 + c.toNat % 64 - 128) = c.toNat by
        omega]
      rw [hofNat]
    · by_cases h3 : c.toNat < 65536
      · simp only [utf8EncodeCp, if_neg h1, if_neg h2, if_pos h3, List.cons_append,
          List.nil_append]
        have hcp : (224 + c.toNat / 4096 - 224) * 4096 + (128 + c.toNat / 64 % 64 - 128) * 64
            + (128 + c.toNat % 64 - 128) = c.toNat := by omega
        rw [utf8DecodeR_three _ _ _ _ (by omega) (by omega) (by omega) (by omega)
          (by omega) (by omega) (by rw [hcp]; omega) (by rw [hcp]; omega)]
        rw [hcp, hofNat]
      · simp only [utf8EncodeCp, if_neg h1, if_neg h2, if_neg h3, List.cons_append,
          List.nil_append]
        have hub : c.toNat < 1114112 := by omega
        have hcp : (240 + c.toNat / 262144 - 240) * 262144
            + (128 + c.toNat / 4096 % 64 - 128) * 4096
            + (128 + c.toNat / 64 % 64 - 128) * 64 + (128 + c.toNat % 64 - 128) = c.toNat := by
          omega
        rw [utf8DecodeR_four _ _ _ _ _ (by omega) (by omega) (by omega) (by omega)
          (by omega) (by omega) (by omega) (by omega) (by rw [hcp]; omega)
          (by rw [hcp]; omega)]
        rw [hcp, hofNat]

theorem utf8DecodeR_encode_append (cs : List Char) (bs : List Nat) :
    utf8DecodeR (cs.flatMap (fun c => utf8EncodeCp c.toNat) ++ bs)
      = cs ++ utf8DecodeR bs := by
  induction cs with
  | nil => simp
  | cons c tl ih =>
    simp only [List.flatMap_cons, List.append_assoc, List.cons_append]
    rw [utf8DecodeR_encodeCp, ih]

theorem utf8DecodeRStr_utf8Encode (s : String) :
    utf8DecodeRStr (utf8Encode s) = s := by
  have h := utf8DecodeR_encode_append s.data []
  simp only [List.append_nil, utf8DecodeR_nil] at h
  unfold utf8DecodeRStr utf8Encode
  rw [h]

theorem take_append_eq (a b : List Nat) (n : Nat) (h : a.length = n) :
    (a ++ b).take n = a := by
  subst h; simp

theorem drop_append_eq (a b : List Nat) (n : Nat) (h : a.length = n) :
    (a ++ b).drop n = b := by
  subst h; simp

theorem int32ToBytes_isEmpty (x : Int) : (int32ToBytes x).isEmpty = false := rfl

theorem recv_exact_append (n : Int) (a b : List Nat)
    (h0 : 0 < n) (h : a.length = n.toNat) :
    recv_exact n (a ++ b) = .ok (a, b) := by
  unfold recv_exact
  rw [if_neg (by omega)]
  rw [if_neg (by rw [List.length_append, ← h]; omega)]
  rw [take_append_eq _ _ _ h, drop_append_eq _ _ _ h]

theorem isEmpty_int32_append (x : Int) (l : List Nat) :
    ((int32ToBytes x) ++ l).isEmpty = false := rfl

/-- C6: for every int32 request id and packet type and every UTF-8 payload
string (of framable length), decoding the encoded wire frame reproduces the
request id, the type, and the payload exactly, consuming exactly the frame. -/
theorem read_packet_send_packet (rid ptype : Int) (body : String) (rest : List Nat)
    (hr : -2147483648 ≤ rid) (hr' : rid < 2147483648)
    (ht : -2147483648 ≤ ptype) (ht' : ptype < 2147483648)
    (hlen : (utf8Encode body).length + 10 ≤ 2147483647) :
    read_packet (send_packet rid ptype body ++ rest)
      = .ok (some (rid, ptype, body), rest) := by
  unfold send_packet read_packet
  set pl := utf8Encode body ++ [0, 0] with hpl
  have hplLen : pl.length = (utf8Encode body).length + 2 := by simp [hpl]
  have hL0 : -2147483648 ≤ 4 + 4 + (pl.length : Int) := by omega
  have hL1 : 4 + 4 + (pl.length : Int) < 2147483648 := by
    rw [hplLen]; push_cast; omega
  have h1 : recv_exact 4 ((int32ToBytes (4 + 4 + (pl.length : Int)))
      ++ (int32ToBytes rid ++ (int32ToBytes ptype ++ (pl ++ rest))))
      = .ok (int32ToBytes (4 + 4 + (pl.length : Int)),
             int32ToBytes rid ++ (int32ToBytes ptype ++ (pl ++ rest))) :=
    recv_exact_append 4 _ _ (by omega) (by rw [int32ToBytes_length]; rfl)
  have hmid : int32ToBytes rid ++ (int32ToBytes ptype ++ (pl ++ rest))
      = (int32ToBytes rid ++ (int32ToBytes ptype ++ pl)) ++ rest := by
    simp [List.append_assoc]
  have hdataLen : (int32ToBytes rid ++ (int32ToBytes ptype ++ pl)).length
      = 8 + pl.length := by
    simp [int32ToBytes_length]
    omega
  have h2 : recv_exact (4 + 4 + (pl.length : Int))
      (int32ToBytes rid ++ (int32ToBytes ptype ++ (pl ++ rest)))
      = .ok (int32ToBytes rid ++ (int32ToBytes ptype ++ pl), rest) := by
    rw [hmid]
    exact recv_exact_append _ _ _ (by omega) (by rw [hdataLen]; omega)
  have hfield1 : (int32ToBytes rid ++ (int32ToBytes ptype ++ pl)).take 4
      = int32ToBytes rid :=
    take_append_eq _ _ _ (int32ToBytes_length rid)
  have hdrop4 : ((int32ToBytes rid ++ (int32ToBytes ptype ++ pl)).drop 4)
      = int32ToBytes ptype ++ pl :=
    drop_append_eq _ _ _ (int32ToBytes_length rid)
  have hfield2 : (int32ToBytes ptype ++ pl).take 4 = int32ToBytes ptype :=
    take_append_eq _ _ _ (int32ToBytes_length ptype)
  have hdrop8 : (int32ToBytes rid ++ (int32ToBytes ptype ++ pl)).drop 8 = pl := by
    rw [show (8 : Nat) = 4 + 4 by rfl, ← List.drop_drop, hdrop4]
    exact drop_append_eq _ _ _ (int32ToBytes_length ptype)
  have hbody : (pl.dropLast.dropLast) = utf8Encode body := by
    rw [hpl]
    rw [show (utf8Encode body ++ [0, 0]) = (utf8Encode body ++ [0]) ++ [0] by
      simp [List.append_assoc]]
    rw [List.dropLast_concat, List.dropLast_concat]
  have hcond : ¬ ((int32ToBytes rid ++ (int32ToBytes ptype ++ pl)).isEmpty = true
      ∨ (int32ToBytes rid ++ (int32ToBytes ptype ++ pl)).length < 8) := by
    rw [isEmpty_int32_append, hdataLen]
    simp
  simp only [List.append_assoc] at h1 h2 ⊢
  simp only [h1, int32ToBytes_isEmpty, Bool.false_eq_true, if_false,
    bytesToInt32_int32ToBytes _ hL0 hL1, h2]
  rw [if_neg hcond]
  simp only [hfield1, hdrop4, hfield2, hdrop8, hbody]
  rw [bytesToInt32_int32ToBytes _ hr hr', bytesToInt32_int32ToBytes _ ht ht',
    utf8DecodeRStr_utf8Encode]

theorem recv_exact_rest_le (n : Int) (s a rest : List Nat)
    (h : recv_exact n s = .ok (a, rest)) : rest.length ≤ s.length := by
  unfold recv_exact at h
  split at h
  · obtain ⟨-, h2⟩ := Prod.mk.injEq .. ▸ Except.ok.inj h
    rw [← h2]
  · split at h
    · exact absurd h (by simp)
    · obtain ⟨-, h2⟩ := Prod.mk.injEq .. ▸ Except.ok.inj h
      rw [← h2]
      simp

theorem recv_exact_pos_rest (n : Int) (s a rest : List Nat) (h0 : 0 < n)
    (h : recv_exact n s = .ok (a, rest)) : rest.length + n.toNat ≤ s.length := by
  unfold recv_exact at h
  split at h
  · omega
  · split at h
    · exact absurd h (by simp)
    · obtain ⟨-, h2⟩ := Prod.mk.injEq .. ▸ Except.ok.inj h
      rw [← h2]
      simp
      omega

theorem read_packet_shrinks (s : List Nat) (pkt : Option (Int × Int × String))
    (rest : List Nat) (h : read_packet s = .ok (pkt, rest)) :
    rest.length < s.length := by
  unfold read_packet at h
  cases h4 : recv_exact 4 s with
  | error e => simp only [h4] at h; exact absurd h (by simp)
  | ok pr =>
    obtain ⟨raw, s1⟩ := pr
    simp only [h4] at h
    have h41 := recv_exact_pos_rest 4 s raw s1 (by omega) h4
    have h4n : (4 : Int).toNat = 4 := rfl
    split at h
    · obtain ⟨-, h2⟩ := Prod.mk.injEq .. ▸ Except.ok.inj h
      rw [← h2]
      omega
    · cases h5 : recv_exact (bytesToInt32 raw) s1 with
      | error e => simp only [h5] at h; exact absurd h (by simp)
      | ok pr2 =>
        obtain ⟨data, s2⟩ := pr2
        simp only [h5] at h
        have h51 := recv_exact_rest_le _ _ _ _ h5
        split at h
        · obtain ⟨-, h2⟩ := Prod.mk.injEq .. ▸ Except.ok.inj h
          rw [← h2]
          omega
        · obtain ⟨-, h2⟩ := Prod.mk.injEq .. ▸ Except.ok.inj h
          rw [← h2]
          omega

/-- Behaviour of `SimpleRCON.auth` when the pending incoming bytes are two
well-formed frames followed by `rest`: the request-id counter advances by
one, exactly the two frames are consumed, and the outcome is decided by the
second frame's request id and type alone. -/
theorem rcon_auth_on_two_packets (c : RCONConn)
    (r1 t1 r2 t2 : Int) (b1 b2 : String) (rest : List Nat)
    (hr1 : -2147483648 ≤ r1) (hr1' : r1 < 2147483648)
    (ht1 : -2147483648 ≤ t1) (ht1' : t1 < 2147483648)
    (hb1 : (utf8Encode b1).length + 10 ≤ 2147483647)
    (hr2 : -2147483648 ≤ r2) (hr2' : r2 < 2147483648)
    (ht2 : -2147483648 ≤ t2) (ht2' : t2 < 2147483648)
    (hb2 : (utf8Encode b2).length + 10 ≤ 2147483647)
    (hc : c.sock = some (send_packet r1 t1 b1 ++ (send_packet r2 t2 b2 ++ rest))) :
    rcon_auth c = ({ c with req_id := c.req_id + 1, sock := some rest },
      if r2 = -1 ∨ t2 ≠ SERVERDATA_RESPONSE_VALUE then .error "RCON auth failed"
      else .ok ()) := by
  have hread1 := read_packet_send_packet r1 t1 b1 (send_packet r2 t2 b2 ++ rest)
    hr1 hr1' ht1 ht1' hb1
  have hread2 := read_packet_send_packet r2 t2 b2 rest hr2 hr2' ht2 ht2' hb2
  unfold rcon_auth rcon_next_id rcon_send_packet rcon_read_packet
  simp only [hc, hread1, hread2]
  split <;> rfl

/-- C10: within one `SimpleRCON` session the request ids produced by
`_next_id` are exactly `1, 2, 3, ...` in order; every id generated is
strictly positive and in particular never equals the `-1`
authentication-failure sentinel tested by `auth`. -/
theorem rcon_next_id_sequence (pw : String) (n : Nat) :
    rcon_ids (rcon_init pw) n = (List.range n).map (fun (k : Nat) => (k + 1 : Int))
    ∧ ∀ i ∈ rcon_ids (rcon_init pw) n, 0 < i ∧ i ≠ -1 := by
  have key : ∀ (m : Nat) (c : RCONConn),
      rcon_ids c m = (List.range m).map (fun (k : Nat) => c.req_id + (k + 1 : Int)) := by
    intro m
    induction m with
    | zero => intro c; rfl
    | succ m ih =>
      intro c
      rw [rcon_ids, ih, List.range_succ_eq_map]
      simp only [List.map_cons, List.map_map, rcon_next_id, List.cons.injEq]
      refine ⟨by push_cast; ring, List.map_congr_left ?_⟩
      intro k _
      simp only [Function.comp_apply]
      push_cast
      ring
  constructor
  · rw [key n (rcon_init pw)]
    apply List.map_congr_left
    intro k _
    simp [rcon_init]
  · intro i hi
    rw [key n (rcon_init pw)] at hi
    simp only [List.mem_map, List.mem_range, rcon_init] at hi
    obtain ⟨k, -, rfl⟩ := hi
    constructor
    · omega
    · omega

/-- C2 (amended): `auth` reads exactly two response packets and the outcome
depends only on the second packet, but the test is not on the request id
alone — authentication raises exactly when the second packet's request id
is `-1` **or** its type differs from `SERVERDATA_RESPONSE_VALUE`; a second
packet with the matching positive request id and type
`SERVERDATA_RESPONSE_VALUE` succeeds regardless of the first packet's
content. -/
theorem rcon_auth_second_packet_authoritative (c : RCONConn)
    (r1 t1 r2 t2 : Int) (b1 b2 : String) (rest : List Nat)
    (hr1 : -2147483648 ≤ r1) (hr1' : r1 < 2147483648)
    (ht1 : -2147483648 ≤ t1) (ht1' : t1 < 2147483648)
    (hb1 : (utf8Encode b1).length + 10 ≤ 2147483647)
    (hr2 : -2147483648 ≤ r2) (hr2' : r2 < 2147483648)
    (ht2 : -2147483648 ≤ t2) (ht2' : t2 < 2147483648)
    (hb2 : (utf8Encode b2).length + 10 ≤ 2147483647)
    (hc : c.sock = some (send_packet r1 t1 b1 ++ (send_packet r2 t2 b2 ++ rest))) :
    ((rcon_auth c).2 = .error "RCON auth failed"
      ↔ (r2 = -1 ∨ t2 ≠ SERVERDATA_RESPONSE_VALUE))
    ∧ (rcon_auth c).1.sock = some rest := by
  have h := rcon_auth_on_two_packets c r1 t1 r2 t2 b1 b2 rest
    hr1 hr1' ht1 ht1' hb1 hr2 hr2' ht2 ht2' hb2 hc
  rw [h]
  constructor
  · by_cases hf : r2 = -1 ∨ t2 ≠ SERVERDATA_RESPONSE_VALUE
    · rw [if_pos hf]; simp [hf]
    · rw [if_neg hf]; simp [hf]
  · rfl

/-- C2 counterexample to the claim as stated: the AUTH request is sent with
request id `1`, and the second response packet carries that same positive
request id `1` (not `-1`) — yet `auth` raises, because the packet's type is
`3` rather than `SERVERDATA_RESPONSE_VALUE`. -/
theorem rcon_auth_matching_positive_id_still_fails :
    (rcon_auth ⟨"pw", some (send_packet 0 0 "" ++ (send_packet 1 3 "" ++ [])), 0⟩).2
      = .error "RCON auth failed"
    ∧ (rcon_next_id (rcon_init "pw")).1 = 1
    ∧ ((1 : Int) = -1) = False := by
  refine ⟨rfl, rfl, by simp⟩

/-- C2 witness: a concrete two-frame stream whose second packet has request
id `-1`, run through the amended auth theorem. -/
theorem rcon_auth_second_packet_witness :
    (utf8Encode "x").length + 10 ≤ 2147483647
    ∧ (((rcon_auth ⟨"pw", some (send_packet 5 0 "x" ++ (send_packet (-1) 0 "" ++ [])), 0⟩).2
          = .error "RCON auth failed")
        ↔ ((-1 : Int) = -1 ∨ (0 : Int) ≠ SERVERDATA_RESPONSE_VALUE))
    ∧ (rcon_auth ⟨"pw", some (send_packet 5 0 "x" ++ (send_packet (-1) 0 "" ++ [])), 0⟩).1.sock
        = some [] :=
  ⟨by decide,
   (rcon_auth_second_packet_authoritative
     ⟨"pw", some (send_packet 5 0 "x" ++ (send_packet (-1) 0 "" ++ [])), 0⟩
     5 0 (-1) 0 "x" "" [] (by decide) (by decide) (by decide) (by decide) (by decide)
     (by decide) (by decide) (by decide) (by decide) (by decide) rfl).1,
   (rcon_auth_second_packet_authoritative
     ⟨"pw", some (send_packet 5 0 "x" ++ (send_packet (-1) 0 "" ++ [])), 0⟩
     5 0 (-1) 0 "x" "" [] (by decide) (by decide) (by decide) (by decide) (by decide)
     (by decide) (by decide) (by decide) (by decide) (by decide) rfl).2⟩

/-- C4 (amended/corrected): `close()` and `__exit__` always leave the client
disconnected, but the connect-on-demand path inside `command()` and the body
of `__enter__` do not guarantee closure: when authentication fails there,
the error propagates to the caller with the socket still open (its pending
bytes intact). -/
theorem rcon_command_socket_leak (c : RCONConn) (incoming : List Nat) (cmd : String)
    (r1 t1 r2 t2 : Int) (b1 b2 : String) (rest : List Nat)
    (hsock : c.sock = none)
    (hr1 : -2147483648 ≤ r1) (hr1' : r1 < 2147483648)
    (ht1 : -2147483648 ≤ t1) (ht1' : t1 < 2147483648)
    (hb1 : (utf8Encode b1).length + 10 ≤ 2147483647)
    (hr2 : -2147483648 ≤ r2) (hr2' : r2 < 2147483648)
    (ht2 : -2147483648 ≤ t2) (ht2' : t2 < 2147483648)
    (hb2 : (utf8Encode b2).length + 10 ≤ 2147483647)
    (hfail : r2 = -1 ∨ t2 ≠ SERVERDATA_RESPONSE_VALUE)
    (hinc : incoming = send_packet r1 t1 b1 ++ (send_packet r2 t2 b2 ++ rest)) :
    (∀ d : RCONConn, (rcon_exit d).sock = none ∧ (rcon_close d).sock = none)
    ∧ (rcon_command incoming cmd c).2 = .error "RCON auth failed"
    ∧ (rcon_command incoming cmd c).1.sock = some rest
    ∧ (rcon_enter incoming c).2 = .error "RCON auth failed"
    ∧ (rcon_enter incoming c).1.sock = some rest := by
  have hauth := rcon_auth_on_two_packets (rcon_connect incoming c) r1 t1 r2 t2 b1 b2 rest
    hr1 hr1' ht1 ht1' hb1 hr2 hr2' ht2 ht2' hb2 (by rw [hinc]; rfl)
  rw [if_pos hfail] at hauth
  unfold rcon_command rcon_enter
  simp only [hsock, hauth]
  refine ⟨fun d => ⟨rfl, rfl⟩, ?_, ?_, ?_, ?_⟩ <;> trivial

/-- C4 counterexample to the claim as stated: `command()` on a disconnected
client opens a socket, authentication fails, and the error reaches the
caller with the socket still open — no code path closed it. -/
theorem rcon_command_auth_failure_leaves_socket_open :
    (rcon_command (send_packet 0 0 "" ++ (send_packet (-1) 0 "" ++ [])) "list"
        (rcon_init "pw")).2 = .error "RCON auth failed"
    ∧ (rcon_command (send_packet 0 0 "" ++ (send_packet (-1) 0 "" ++ [])) "list"
        (rcon_init "pw")).1.sock ≠ none :=
  ⟨rfl, by decide⟩

/-- C4 witness: the amended socket-closure theorem applied to a concrete
disconnected client and a concrete auth-failing stream. -/
theorem rcon_command_socket_leak_witness :
    (rcon_init "pw").sock = none
    ∧ ((-1 : Int) = -1 ∨ (0 : Int) ≠ SERVERDATA_RESPONSE_VALUE)
    ∧ (rcon_command (send_packet 0 0 "" ++ (send_packet (-1) 0 "" ++ [])) "list"
        (rcon_init "pw")).2 = .error "RCON auth failed"
    ∧ (rcon_command (send_packet 0 0 "" ++ (send_packet (-1) 0 "" ++ [])) "list"
        (rcon_init "pw")).1.sock = some [] :=
  ⟨rfl, by decide,
   (rcon_command_socket_leak (rcon_init "pw") _ "list" 0 0 (-1) 0 "" "" [] rfl
     (by decide) (by decide) (by decide) (by decide) (by decide) (by decide) (by decide)
     (by decide) (by decide) (by decide) (by decide) rfl).2.1,
   (rcon_command_socket_leak (rcon_init "pw") _ "list" 0 0 (-1) 0 "" "" [] rfl
     (by decide) (by decide) (by decide) (by decide) (by decide) (by decide) (by decide)
     (by decide) (by decide) (by decide) (by decide) rfl).2.2.1⟩

/-- C6 witness: the round-trip theorem applied to a concrete frame. -/
theorem read_packet_send_packet_witness :
    (utf8Encode "hi").length + 10 ≤ 2147483647
    ∧ read_packet (send_packet 7 2 "hi" ++ []) = .ok (some (7, 2, "hi"), []) :=
  ⟨by decide,
   read_packet_send_packet 7 2 "hi" [] (by decide) (by decide) (by decide) (by decide)
     (by decide)⟩

/-- C5: `_parse_list_response` implements exactly the split-once/trim/drop
algorithm of the specification, and on the two sample responses yields
`["Alice", "Bob"]` and `[]` respectively. -/
theorem parse_list_response_spec :
    (∀ resp : String, parse_list_response resp = parse_list_spec resp)
    ∧ parse_list_response "There are 2 of a max 20 players online: Alice, Bob"
        = ["Alice", "Bob"]
    ∧ parse_list_response "There are 0 of a max 20 players online:" = [] := by
  refine ⟨?_, by decide, by decide⟩
  intro resp
  unfold parse_list_response parse_list_spec
  by_cases hnil : resp.data = []
  · rw [if_pos hnil]
    have : ¬ ':' ∈ resp.data := by rw [hnil]; simp
    rw [if_neg this]
  · rw [if_neg hnil]
    by_cases hc : ':' ∈ resp.data
    · rw [if_pos hc, if_pos hc]
    · rw [if_neg hc, if_neg hc]
      simp

/-- C7: ingesting a line that matches the leave pattern for an identity that
previously joined removes the identity from the online set, while its
last-seen entry remains present in the map; and the entry then stays
unchanged under any further line that produces no event for that identity. -/
theorem leave_keeps_last_seen (line : String) (p : String) (t : Int) (s : Presence)
    (hleave : eventOf line = some (p, false))
    (honline : p ∈ s.players_online)
    (hseen : (s.player_last_seen p).isSome = true) :
    ¬ p ∈ (process_player_events line t s).players_online
    ∧ ((process_player_events line t s).player_last_seen p).isSome = true
    ∧ ∀ (line2 : String) (t2 : Int),
        (∀ b, ¬ eventOf line2 = some (p, b)) →
        (process_player_events line2 t2 (process_player_events line t s)).player_last_seen p
          = (process_player_events line t s).player_last_seen p := by
  have hstep : process_player_events line t s
      = { players_online := removeOnline p s.players_online,
          player_last_seen := fun m => if m = p then some t else s.player_last_seen m } := by
    unfold process_player_events
    rw [hleave]
  refine ⟨?_, ?_, ?_⟩
  · rw [hstep]
    simp [removeOnline, List.mem_filter]
  · rw [hstep]
    simp
  · intro line2 t2 hnoev
    cases hev2 : eventOf line2 with
    | none =>
      unfold process_player_events
      rw [hev2]
    | some pr =>
      obtain ⟨q, b⟩ := pr
      have hq : ¬ q = p := by
        intro habs
        exact hnoev b (by rw [hev2, habs])
      have hq' : ¬ p = q := fun habs => hq habs.symm
      unfold process_player_events
      rw [hev2]
      cases b <;> simp [hq']

/-- C7 witness: Foo joins (sample join line), then leaves via
`"[14:09:00 INFO]: Foo left the game"`; the theorem is applied to that
concrete state. -/
theorem leave_keeps_last_seen_witness :
    eventOf "[14:09:00 INFO]: Foo left the game" = some ("Foo", false)
    ∧ "Foo" ∈ (process_player_events
        "[14:08:06 INFO]: Foo[/127.0.0.1:1234] logged in with entity id 1 at (x)" 100
        presence_init).players_online
    ∧ (¬ "Foo" ∈ (process_player_events "[14:09:00 INFO]: Foo left the game" 200
          (process_player_events
            "[14:08:06 INFO]: Foo[/127.0.0.1:1234] logged in with entity id 1 at (x)" 100
            presence_init)).players_online
       ∧ ((process_player_events "[14:09:00 INFO]: Foo left the game" 200
          (process_player_events
            "[14:08:06 INFO]: Foo[/127.0.0.1:1234] logged in with entity id 1 at (x)" 100
            presence_init)).player_last_seen "Foo").isSome = true
       ∧ ∀ (line2 : String) (t2 : Int),
          (∀ b, ¬ eventOf line2 = some ("Foo", b)) →
          (process_player_events line2 t2
            (process_player_events "[14:09:00 INFO]: Foo left the game" 200
              (process_player_events
                "[14:08:06 INFO]: Foo[/127.0.0.1:1234] logged in with entity id 1 at (x)" 100
                presence_init))).player_last_seen "Foo"
            = (process_player_events "[14:09:00 INFO]: Foo left the game" 200
              (process_player_events
                "[14:08:06 INFO]: Foo[/127.0.0.1:1234] logged in with entity id 1 at (x)" 100
                presence_init)).player_last_seen "Foo") :=
  ⟨by decide, by decide,
   leave_keeps_last_seen _ "Foo" 200 _ (by decide) (by decide) (by decide)⟩

theorem entriesFor_nil : entriesFor [] = [] := rfl

theorem entriesFor_length (L : List String) : (entriesFor L).length = L.length := by
  unfold entriesFor
  simp

theorem entriesFor_concat (L : List String) (x : String) :
    entriesFor (L ++ [x]) = entriesFor L ++ [⟨L.length + 1, pyRstripNewline x⟩] := by
  unfold entriesFor
  rw [show (L ++ [x]).length = L.length + 1 by simp, List.range_succ]
  rw [List.zipWith_append _ _ _ _ _ (by simp)]
  simp

theorem appendAll_concat (pw : String) (l : List (String × Int)) (e : String × Int) :
    appendAll (l ++ [e]) (mstate_init pw)
      = add_log_line e.1 e.2 (appendAll l (mstate_init pw)) := by
  unfold appendAll
  rw [List.foldl_append]
  rfl

/-- Invariant of the log buffer on a fresh manager: after any sequence of
appends the id counter equals the number of appends, and the buffer holds
exactly the entries for the last `LOG_CAPACITY` lines (the `i`-th line
carrying id `i + 1`). -/
theorem appendAll_log (pw : String) (evs : List (String × Int)) :
    (appendAll evs (mstate_init pw)).log_id = evs.length
    ∧ (appendAll evs (mstate_init pw)).console_log
        = (entriesFor (evs.map Prod.fst)).drop (evs.length - LOG_CAPACITY) := by
  induction evs using List.reverseRecOn with
  | nil => exact ⟨rfl, rfl⟩
  | append_singleton l e ih =>
    obtain ⟨ih1, ih2⟩ := ih
    rw [appendAll_concat]
    have hLlen : (l.map Prod.fst).length = l.length := by simp
    constructor
    · simp [add_log_line, ih1]
    · rw [show (l ++ [e]).map Prod.fst = l.map Prod.fst ++ [e.1] by simp]
      rw [entriesFor_concat, hLlen]
      rw [show (l ++ [e]).length = l.length + 1 by simp]
      simp only [add_log_line]
      rw [ih2, ih1]
      have hElen : (entriesFor (l.map Prod.fst)).length = l.length := by
        rw [entriesFor_length, hLlen]
      have hCAP : LOG_CAPACITY = 2000 := rfl
      by_cases h1 : l.length < LOG_CAPACITY
      · rw [show l.length - LOG_CAPACITY = 0 by omega, List.drop_zero]
        have hlen : (entriesFor (l.map Prod.fst)
            ++ [(⟨l.length + 1, pyRstripNewline e.1⟩ : LogEntry)]).length = l.length + 1 := by
          simp [hElen]
        rw [if_neg (by rw [hlen]; omega)]
        rw [show l.length + 1 - LOG_CAPACITY = 0 by omega, List.drop_zero]
      · have hdlen : ((entriesFor (l.map Prod.fst)).drop (l.length - LOG_CAPACITY)
            ++ [(⟨l.length + 1, pyRstripNewline e.1⟩ : LogEntry)]).length = LOG_CAPACITY + 1 := by
          simp [hElen]
          omega
        rw [if_pos (by rw [hdlen]; omega)]
        rw [hdlen, show LOG_CAPACITY + 1 - LOG_CAPACITY = 1 by omega]
        rw [List.drop_append_of_le_length (by simp [hElen]; omega)]
        rw [List.drop_drop]
        rw [List.drop_append_of_le_length (by rw [hElen]; omega)]
        rw [show l.length - LOG_CAPACITY + 1 = l.length + 1 - LOG_CAPACITY by omega]

theorem map_id_entriesFor (L : List String) :
    (entriesFor L).map LogEntry.id = List.range' 1 L.length := by
  unfold entriesFor
  rw [List.map_zipWith]
  have : ∀ (r : List Nat) (M : List String), r.length = M.length →
      List.zipWith (fun i (_ : String) => i + 1) r M = r.map (fun i => i + 1) := by
    intro r
    induction r with
    | nil => intro M h; simp
    | cons a tl ihr =>
      intro M h
      cases M with
      | nil => simp at h
      | cons m ms =>
        simp only [List.zipWith_cons_cons, List.map_cons]
        rw [ihr ms (by simpa using h)]
  rw [this _ _ (by simp)]
  rw [List.range'_eq_map_range]
  apply List.map_congr_left
  intro k _
  omega

theorem map_line_entriesFor (L : List String) :
    (entriesFor L).map LogEntry.line = L.map pyRstripNewline := by
  unfold entriesFor
  rw [List.map_zipWith]
  have : ∀ (r : List Nat) (M : List String), r.length = M.length →
      List.zipWith (fun (_ : Nat) l => pyRstripNewline l) r M = M.map pyRstripNewline := by
    intro r
    induction r with
    | nil =>
      intro M h
      cases M
      · simp
      · simp at h
    | cons a tl ihr =>
      intro M h
      cases M with
      | nil => simp at h
      | cons m ms =>
        simp only [List.zipWith_cons_cons, List.map_cons]
        rw [ihr ms (by simpa using h)]
  rw [this _ _ (by simp)]

theorem drop_range'_one (n k : Nat) (h : k ≤ n) :
    (List.range' 1 n).drop k = List.range' (1 + k) (n - k) := by
  have hsplit : List.range' 1 k ++ List.range' (1 + 1 * k) (n - k) = List.range' 1 n := by
    rw [List.range'_append]
    rw [show n - k + k = n by omega]
  rw [← hsplit]
  have hr : (List.range' 1 k).length = k := by simp
  rw [show (List.range' 1 k ++ List.range' (1 + 1 * k) (n - k)).drop k
      = List.range' (1 + 1 * k) (n - k) from drop_append_eq _ _ k hr]
  rw [show 1 + 1 * k = 1 + k by omega]

/-- The ids retained after any sequence of appends on a fresh manager form
the consecutive run ending at the number of appends. -/
theorem console_log_ids (pw : String) (evs : List (String × Int)) :
    (appendAll evs (mstate_init pw)).console_log.map LogEntry.id
      = List.range' (evs.length - LOG_CAPACITY + 1) (min evs.length LOG_CAPACITY) := by
  obtain ⟨-, h2⟩ := appendAll_log pw evs
  rw [h2, List.map_drop, map_id_entriesFor]
  rw [show (evs.map Prod.fst).length = evs.length by simp]
  rw [drop_range'_one _ _ (by omega)]
  rw [show 1 + (evs.length - LOG_CAPACITY) = evs.length - LOG_CAPACITY + 1 by omega]
  rw [show evs.length - (evs.length - LOG_CAPACITY) = min evs.length LOG_CAPACITY by omega]

/-- C1: on a fresh manager, after any sequence of appended log lines,
`get_logs_since(0)` returns exactly the retained entries; their ids are the
consecutive run ending at the number of appends (so gap-free, strictly
increasing, and starting at 1 until the buffer overflows), their lines are
the corresponding appended lines in order, and the id counter equals the
number of appends — each append got the next id `1, 2, 3, ...`. -/
theorem get_logs_since_zero (pw : String) (evs : List (String × Int)) :
    get_logs_since 0 (appendAll evs (mstate_init pw))
      = (appendAll evs (mstate_init pw)).console_log
    ∧ (appendAll evs (mstate_init pw)).console_log.map LogEntry.id
      = List.range' (evs.length - LOG_CAPACITY + 1) (min evs.length LOG_CAPACITY)
    ∧ (appendAll evs (mstate_init pw)).console_log.map LogEntry.line
      = ((evs.map Prod.fst).map pyRstripNewline).drop (evs.length - LOG_CAPACITY)
    ∧ (appendAll evs (mstate_init pw)).log_id = evs.length := by
  obtain ⟨h1, h2⟩ := appendAll_log pw evs
  have hids := console_log_ids pw evs
  refine ⟨?_, hids, ?_, h1⟩
  · unfold get_logs_since
    rw [List.filter_eq_self]
    intro e he
    have hmem : e.id ∈ (appendAll evs (mstate_init pw)).console_log.map LogEntry.id :=
      List.mem_map_of_mem LogEntry.id he
    rw [hids] at hmem
    rw [List.mem_range'] at hmem
    obtain ⟨i, -, hid⟩ := hmem
    simp only [decide_eq_true_eq]
    omega
  · rw [h2, List.map_drop, map_line_entriesFor]

/-- C8: for more appends than the capacity (2000), the buffer retains
exactly the most recent `LOG_CAPACITY` entries — the suffix of the full
entry sequence, oldest evicted first — and the retained ids form the run of
the `LOG_CAPACITY` highest ids assigned. -/
theorem ring_buffer_keeps_latest (pw : String) (evs : List (String × Int))
    (h : LOG_CAPACITY < evs.length) :
    (appendAll evs (mstate_init pw)).console_log.length = LOG_CAPACITY
    ∧ (appendAll evs (mstate_init pw)).console_log
        = (entriesFor (evs.map Prod.fst)).drop (evs.length - LOG_CAPACITY)
    ∧ (appendAll evs (mstate_init pw)).console_log.map LogEntry.id
        = List.range' (evs.length - LOG_CAPACITY + 1) LOG_CAPACITY := by
  obtain ⟨-, h2⟩ := appendAll_log pw evs
  have hids := console_log_ids pw evs
  rw [show min evs.length LOG_CAPACITY = LOG_CAPACITY by omega] at hids
  refine ⟨?_, h2, hids⟩
  have := congrArg List.length hids
  simp only [List.length_map, List.length_range'] at this
  exact this

/-- C8 witness: 2001 appends on the 2000-capacity buffer. -/
theorem ring_buffer_keeps_latest_witness :
    LOG_CAPACITY < (List.replicate 2001 ("a", (0 : Int))).length
    ∧ ((appendAll (List.replicate 2001 ("a", (0 : Int))) (mstate_init "")).console_log.length
        = LOG_CAPACITY
      ∧ (appendAll (List.replicate 2001 ("a", (0 : Int))) (mstate_init "")).console_log
          = (entriesFor ((List.replicate 2001 ("a", (0 : Int))).map Prod.fst)).drop
              ((List.replicate 2001 ("a", (0 : Int))).length - LOG_CAPACITY)
      ∧ (appendAll (List.replicate 2001 ("a", (0 : Int)))
            (mstate_init "")).console_log.map LogEntry.id
          = List.range' ((List.replicate 2001 ("a", (0 : Int))).length - LOG_CAPACITY + 1)
              LOG_CAPACITY) :=
  ⟨by rw [List.length_replicate]; decide,
   ring_buffer_keeps_latest "" (List.replicate 2001 ("a", (0 : Int)))
     (by rw [List.length_replicate]; decide)⟩

theorem rcon_list_disabled_noop (net : Except String String) (now : Int) (s : MState)
    (hd : s.rcon_disabled_reason.isSome = true) :
    rcon_list net now s = (none, s, false) := by
  have hne : ¬ s.rcon_disabled_reason = none := by
    intro habs
    rw [habs] at hd
    simp at hd
  unfold rcon_list
  repeat' split
  all_goals try rfl
  all_goals contradiction

theorem get_online_players_disabled (net : Except String String) (now : Int) (s : MState)
    (hd : s.rcon_disabled_reason.isSome = true) :
    get_online_players net now s = (onlineView s, s, false) := by
  unfold get_online_players
  rw [rcon_list_disabled_noop net now s hd]

/-- One failing `_rcon_list` call from an enabled, not-yet-disabled state:
RCON stays enabled with the same password, and either the breaker trips or
the failure counter advances by one while staying below the threshold. -/
theorem rcon_list_fail_progress (e : String) (now : Int) (s : MState)
    (hen : s.rcon_enabled = true) (hpw : ¬ s.rcon_pass = "")
    (hd : s.rcon_disabled_reason = none) :
    (rcon_list (.error e) now s).2.1.rcon_enabled = true
    ∧ (rcon_list (.error e) now s).2.1.rcon_pass = s.rcon_pass
    ∧ ((rcon_list (.error e) now s).2.1.rcon_disabled_reason.isSome = true
       ∨ ((rcon_list (.error e) now s).2.1.rcon_disabled_reason = none
          ∧ (rcon_list (.error e) now s).2.1.rcon_fail_count = s.rcon_fail_count + 1
          ∧ s.rcon_fail_count + 1 < 3)) := by
  unfold rcon_list
  rw [if_neg (by simp [hen, hpw])]
  rw [if_neg (by simp [hd])]
  simp only []
  by_cases h3 : 3 ≤ s.rcon_fail_count + 1
  · rw [if_pos h3]
    exact ⟨hen, rfl, Or.inl rfl⟩
  · rw [if_neg h3]
    exact ⟨hen, rfl, Or.inr ⟨hd, rfl, by omega⟩⟩

theorem mstep_preserves_disabled (s s' : MState)
    (hd : s.rcon_disabled_reason.isSome = true) (hstep : MStep s s') :
    s'.rcon_disabled_reason.isSome = true := by
  cases hstep with
  | add_log line now => exact hd
  | rcon net now =>
    rw [rcon_list_disabled_noop net _ _ hd]
    exact hd
  | players net now =>
    rw [get_online_players_disabled net _ _ hd]
    exact hd
  | halt now =>
    unfold stop
    split
    · exact hd
    · exact hd
    · exact hd

/-- C3: from any enabled state, three consecutive remote-list failures trip
the breaker; once `rcon_disabled_reason` is set, every `_rcon_list` call
returns `None` without touching the network and without changing the state,
`get_online_players` then returns only the log-derived presence view, and
no modelled supervisor operation ever clears the breaker. -/
theorem rcon_three_failures_permanent (s0 : MState) (e1 e2 e3 : String) (n1 n2 n3 : Int)
    (hen : s0.rcon_enabled = true) (hpw : ¬ s0.rcon_pass = "") :
    (rcon_list (.error e3) n3
        (rcon_list (.error e2) n2
          (rcon_list (.error e1) n1 s0).2.1).2.1).2.1.rcon_disabled_reason.isSome = true
    ∧ (∀ (s : MState) (net : Except String String) (now : Int),
        s.rcon_disabled_reason.isSome = true → rcon_list net now s = (none, s, false))
    ∧ (∀ (s : MState) (net : Except String String) (now : Int),
        s.rcon_disabled_reason.isSome = true →
        get_online_players net now s = (onlineView s, s, false))
    ∧ (∀ (s s' : MState), s.rcon_disabled_reason.isSome = true → MStep s s' →
        s'.rcon_disabled_reason.isSome = true) := by
  refine ⟨?_, fun s net now hd => rcon_list_disabled_noop net now s hd,
    fun s net now hd => get_online_players_disabled net now s hd,
    mstep_preserves_disabled⟩
  by_cases hd0 : s0.rcon_disabled_reason.isSome = true
  · rw [rcon_list_disabled_noop _ _ _ hd0]
    rw [rcon_list_disabled_noop _ _ _ hd0]
    rw [rcon_list_disabled_noop _ _ _ hd0]
    exact hd0
  · have hd0' : s0.rcon_disabled_reason = none := by
      cases hcase : s0.rcon_disabled_reason
      · rfl
      · rw [hcase] at hd0
        simp at hd0
    obtain ⟨hen1, hpw1, hcase1⟩ := rcon_list_fail_progress e1 n1 s0 hen hpw hd0'
    rcases hcase1 with hdis1 | ⟨hnone1, hcnt1, -⟩
    · rw [rcon_list_disabled_noop _ _ _ hdis1, rcon_list_disabled_noop _ _ _ hdis1]
      exact hdis1
    · have hpw1' : ¬ (rcon_list (.error e1) n1 s0).2.1.rcon_pass = "" := by
        rw [hpw1]; exact hpw
      obtain ⟨hen2, hpw2, hcase2⟩ := rcon_list_fail_progress e2 n2 _ hen1 hpw1' hnone1
      rcases hcase2 with hdis2 | ⟨hnone2, hcnt2, -⟩
      · rw [rcon_list_disabled_noop _ _ _ hdis2]
        exact hdis2
      · have hpw2' : ¬ (rcon_list (.error e2) n2
            (rcon_list (.error e1) n1 s0).2.1).2.1.rcon_pass = "" := by
          rw [hpw2, hpw1]; exact hpw
        obtain ⟨-, -, hcase3⟩ := rcon_list_fail_progress e3 n3 _ hen2 hpw2' hnone2
        rcases hcase3 with hdis3 | ⟨-, -, hlt3⟩
        · exact hdis3
        · rw [hcnt2, hcnt1] at hlt3
          omega

/-- C3 witness: a fresh manager with a non-empty RCON password, three
concrete failures. -/
theorem rcon_three_failures_permanent_witness :
    (mstate_init "pw").rcon_enabled = true
    ∧ ¬ (mstate_init "pw").rcon_pass = ""
    ∧ (rcon_list (.error "refused") 3
        (rcon_list (.error "refused") 2
          (rcon_list (.error "refused") 1
            (mstate_init "pw")).2.1).2.1).2.1.rcon_disabled_reason.isSome = true :=
  ⟨rfl, by decide,
   (rcon_three_failures_permanent (mstate_init "pw") "refused" "refused" "refused" 1 2 3
     rfl (by decide)).1⟩

/-- C9: `stop()` with no live process — no handle at all, or a process that
has already exited — returns `False` and leaves the state exactly as it
was: no `user_requested_stop`, no stop worker, no log line. -/
theorem stop_without_live_process_noop (now : Int) (s : MState)
    (h : s.process = none ∨ ∃ code : Int, s.process = some (some code)) :
    stop now s = (false, s) := by
  unfold stop
  rcases h with h | ⟨code, h⟩ <;> rw [h]

/-- C9 witness: `stop` on the freshly initialized manager. -/
theorem stop_without_live_process_noop_witness :
    ((mstate_init "").process = none
      ∨ ∃ code : Int, (mstate_init "").process = some (some code))
    ∧ stop 0 (mstate_init "") = (false, mstate_init "") :=
  ⟨Or.inl rfl, stop_without_live_process_noop 0 (mstate_init "") (Or.inl rfl)⟩

end ServerManager
